import Mathlib

/-!
Shallow embedding of the core logic of `launcher.cpp` (proto-launcher):
keyword indexing, ranking/search, the query-editing state machine and the
config read/write (usage & preference store).  Machine `int`s are modelled
as `Int` (no overflow is relevant at the values the program handles),
`std::string` as `String`, `std::string::find` as `Option Nat`, a thrown
`std::invalid_argument` from `stoi` as `Option.none`.
-/

/-- `StyleAttribute` enum from the source (declaration order = enum order,
which is also the iteration order of `std::map<StyleAttribute, _>`). -/
inductive StyleAttribute where
  | C_TITLE | C_COMMENT | C_BG | C_HIGHLIGHT | C_MATCH
  | F_REGULAR | F_BOLD | F_SMALLREGULAR | F_SMALLBOLD | F_LARGE
deriving DecidableEq, BEq, Repr

/-- `struct Keyword { string word; int weight; }`. -/
structure Keyword where
  word : String
  weight : Int
deriving DecidableEq, Repr

/-- `struct Application`.  `count` defaults to `0` as in the source
(`int count = 0;`, and `Application app = {};` value-initialises the
string fields to empty strings). -/
structure Application where
  id : String := ""
  name : String := ""
  genericName : String := ""
  comment : String := ""
  cmd : String := ""
  keywords : List Keyword := []
  count : Int := 0
deriving DecidableEq, Repr

/-- `struct Result { Application *app; int score; }`; the pointer is
modelled by the application value itself. -/
structure Result where
  app : Application
  score : Int
deriving DecidableEq, Repr

/-- `std::string::find(pat)` on the suffix starting at `i`: the first
index `≥ i` at which `pat` occurs in the haystack.  (An empty pattern is
found at the start, as in C++.) -/
def strFindAux (pat : List Char) : List Char → Nat → Option Nat
  | [], i => if pat.isPrefixOf ([] : List Char) then some i else none
  | c :: t, i => if pat.isPrefixOf (c :: t) then some i else strFindAux pat t (i + 1)

/-- `hay.find(pat)` from `std::string`: `some m` is the first match
position, `none` is `string::npos`. -/
def strFind (hay pat : String) : Option Nat :=
  strFindAux pat.data hay.data 0

/-- `lowercase` from the source: `::tolower` on every character
(ASCII, as in the "C" locale). -/
def lowercase (str : String) : String :=
  String.mk (str.data.map Char.toLower)

/-- The inner keyword loop of `search` (launcher.cpp:114-127): scan the
keyword list with the running index `i`, and on the first keyword whose
`word` contains the query, return
`(100 - i) * weight * (matchIndex == 0 ? 10000 : 100) + count`,
breaking out of the loop; if no keyword matches, the score stays `0`. -/
def scoreLoop (queryi : String) (count : Int) : List Keyword → Nat → Int
  | [], _ => 0
  | kw :: rest, i =>
    match strFind kw.word queryi with
    | some m => (100 - (i : Int)) * kw.weight * (if m = 0 then 10000 else 100) + count
    | none => scoreLoop queryi count rest (i + 1)

/-- Score of one application for the (already lower-cased) query. -/
def scoreApp (queryi : String) (app : Application) : Int :=
  scoreLoop queryi app.count app.keywords 0

/-- The unsorted result list built by `search` (launcher.cpp:113-131):
one `Result` per application whose score is `> 0`. -/
def resultCandidates (queryi : String) (apps : List Application) : List Result :=
  apps.filterMap fun app =>
    let s := scoreApp queryi app
    if 0 < s then some ⟨app, s⟩ else none

/-- The comparison passed to `sort` (launcher.cpp:132-134):
`b.score < a.score`, i.e. descending score order (as a total preorder). -/
def byScoreDesc (a b : Result) : Prop := b.score ≤ a.score

instance : DecidableRel byScoreDesc := fun a b => inferInstanceAs (Decidable (b.score ≤ a.score))

instance : IsTotal Result byScoreDesc := ⟨fun a b => le_total b.score a.score⟩

instance : IsTrans Result byScoreDesc := ⟨fun _ _ _ h1 h2 => le_trans h2 h1⟩

/-- `if (results.size() > 10) results.resize(10);` (launcher.cpp:135-137). -/
def truncate10 (l : List Result) : List Result :=
  if 10 < l.length then l.take 10 else l

/-- `search` (launcher.cpp:110-139): empty query gives no results;
otherwise score every application, keep positive scores, sort by
descending score and cap at 10 results. -/
def search (queryi : String) (apps : List Application) : List Result :=
  if 0 < queryi.length then
    truncate10 (List.insertionSort byScoreDesc (resultCandidates queryi apps))
  else []

/-- `while (getline(ss, word, ' '))` over a string, with the explicit
accumulator for the characters of the token being read: every delimiter
emits the token read so far (possibly empty); at end of input a final
`getline` that extracts no characters fails, so a pending empty token at
end-of-string is not emitted. -/
def cppTokensAux : List Char → List Char → List String
  | [], acc => if acc = [] then [] else [String.mk acc.reverse]
  | c :: t, acc =>
    if c = ' ' then String.mk acc.reverse :: cppTokensAux t []
    else cppTokensAux t (c :: acc)

/-- All tokens produced by `getline(ss, word, ' ')` on `s`. -/
def cppTokenize (s : String) : List String :=
  cppTokensAux s.data []

/-- The keyword-building part of `getApplications` (launcher.cpp:289-298):
to the keywords already pushed while parsing the file (`kws0`, the
`Keywords=` hints), append the tokens of the lower-cased name with weight
1000, then the tokens of `genericName + ' ' + comment` (lower-cased) with
weight 1. -/
def indexKeywords (kws0 : List Keyword) (name genericName comment : String) : List Keyword :=
  kws0
    ++ (cppTokenize (lowercase name)).map (fun w => ⟨w, 1000⟩)
    ++ (cppTokenize (lowercase (genericName ++ " " ++ comment))).map (fun w => ⟨w, 1⟩)

/-- Spec-side characterisation: the zero-based index of the **first**
keyword whose text contains the query as a contiguous substring. -/
def firstMatchIdx (queryi : String) : List Keyword → Option Nat
  | [] => none
  | kw :: rest =>
    if (strFind kw.word queryi).isSome then some 0
    else (firstMatchIdx queryi rest).map (· + 1)

/-- The Firefox example application of the spec (§8, end-to-end example). -/
def appA : Application :=
  { id := "firefox.desktop", name := "Firefox",
    keywords := [⟨"firefox", 1000⟩, ⟨"web", 1⟩, ⟨"browser", 1⟩], count := 5 }

/-- Prefix-match application for the C3 counterexample: query "fire" is a
prefix of its only keyword. -/
def appPfx : Application := { id := "p.desktop", keywords := [⟨"fire", 1⟩], count := 0 }

/-- Substring-match application for the C3 counterexample: query "fire"
occurs at position 1 of its only keyword, and its launch count is huge. -/
def appSub : Application := { id := "s.desktop", keywords := [⟨"xfire", 1⟩], count := 10000000 }

/-- Concrete instance for the C3 witness: prefix match, weight 2, count 3. -/
def appPfxW : Application := { id := "pw.desktop", keywords := [⟨"fire", 2⟩], count := 3 }

/-- Concrete instance for the C3 witness: substring match, weight 2, count 7. -/
def appSubW : Application := { id := "sw.desktop", keywords := [⟨"afire", 2⟩], count := 7 }

/-- The query-editing key events handled by `onKeyPress`
(launcher.cpp:351-378): cursor movement, character deletion and
single-character insertion. -/
inductive EditKey where
  | left | right | home | endKey | backspace | del | insert (c : Char)
deriving DecidableEq, Repr

/-- The query/cursor part of the launcher's state: the global `query`
string and `cursor` offset. -/
structure EditState where
  query : List Char
  cursor : Nat
deriving DecidableEq, Repr

/-- One step of `onKeyPress` (launcher.cpp:351-378), restricted to the
query-editing keys:
`XK_Left`: `cursor = cursor > 0 ? cursor - 1 : 0`;
`XK_Right`: `cursor = cursor < query.length() ? cursor + 1 : query.length()`;
`XK_Home`: `cursor = 0`; `XK_End`: `cursor = query.length()`;
`XK_BackSpace`: if `cursor > 0` erase at `cursor - 1` and decrement;
`XK_Delete`: if `cursor < query.length()` erase at `cursor`;
otherwise (one textual character) insert at `cursor` and increment. -/
def onEditKey (s : EditState) : EditKey → EditState
  | .left => { s with cursor := if 0 < s.cursor then s.cursor - 1 else 0 }
  | .right => { s with cursor := if s.cursor < s.query.length then s.cursor + 1 else s.query.length }
  | .home => { s with cursor := 0 }
  | .endKey => { s with cursor := s.query.length }
  | .backspace =>
    if 0 < s.cursor then
      { query := s.query.eraseIdx (s.cursor - 1), cursor := s.cursor - 1 }
    else s
  | .del =>
    if s.cursor < s.query.length then { s with query := s.query.eraseIdx s.cursor } else s
  | .insert c =>
    { query := s.query.take s.cursor ++ [c] ++ s.query.drop s.cursor, cursor := s.cursor + 1 }

/-- A finite sequence of key events, processed one at a time. -/
def onEditKeys (s : EditState) (ks : List EditKey) : EditState :=
  ks.foldl onEditKey s

/-- Spec-side plain split on `' '`: every delimited piece of the string,
empty pieces included. -/
def splitAllPieces : List Char → List (List Char)
  | [] => [[]]
  | c :: t =>
    match splitAllPieces t with
    | [] => [[c]]
    | p :: ps => if c = ' ' then [] :: p :: ps else (c :: p) :: ps

/-- Drop the final piece of a piece list when it is empty. -/
def dropLastEmptyPiece : List (List Char) → List (List Char)
  | [] => []
  | [p] => if p = [] then [] else [p]
  | p :: q :: ps => p :: dropLastEmptyPiece (q :: ps)

/-- Eleven applications that all match the query "app" (distinct counts,
hence distinct scores). -/
def capApps : List Application :=
  (List.range 11).map fun n =>
    { id := toString n, keywords := [⟨"app", 1⟩], count := (n : Int) }

/-- The element of `capApps` with count 0 (lowest score of the eleven). -/
def appZero : Application := { id := "0", keywords := [⟨"app", 1⟩], count := 0 }

/-- Single qualifying application for the C10 witness. -/
def appX : Application := { id := "x.desktop", keywords := [⟨"alpha", 1⟩], count := 5 }

/-- `STYLE_ATTRIBUTES`: attribute → config-key name, in enum order (the
iteration order of `std::map<StyleAttribute, const string>`). -/
def STYLE_ATTRIBUTES : List (StyleAttribute × String) :=
  [(.C_TITLE, "title"), (.C_COMMENT, "comment"), (.C_BG, "background"),
    (.C_HIGHLIGHT, "highlight"), (.C_MATCH, "match"),
    (.F_REGULAR, "regular"), (.F_BOLD, "bold"), (.F_SMALLREGULAR, "smallregular"),
    (.F_SMALLBOLD, "smallbold"), (.F_LARGE, "large")]

/-- `DEFAULT_STYLE` from the source, same representation. -/
def DEFAULT_STYLE : List (StyleAttribute × String) :=
  [(.C_TITLE, "#111111"), (.C_COMMENT, "#999999"), (.C_BG, "#ffffff"),
    (.C_HIGHLIGHT, "#f8c291"), (.C_MATCH, "#111111"),
    (.F_REGULAR, "Ubuntu,sans-11"), (.F_BOLD, "Ubuntu,sans-11:bold"),
    (.F_SMALLREGULAR, "Ubuntu,sans-10"), (.F_SMALLBOLD, "Ubuntu,sans-10:bold"),
    (.F_LARGE, "Ubuntu,sans-20:light")]

/-- `style[k] = v` on the style map, represented as the association list
of the `std::map`.  Its key set is always exactly the ten attributes (the
map is initialised from `DEFAULT_STYLE` and only ever assigned at keys
drawn from `STYLE_ATTRIBUTES`), so `operator[]` never inserts a new key
and assignment is an in-place update. -/
def styleSet (m : List (StyleAttribute × String)) (k : StyleAttribute) (v : String) :
    List (StyleAttribute × String) :=
  m.map fun p => if p.1 = k then (k, v) else p

/-- `style[k]` read access (the key is always present; `""` models the
unreachable miss). -/
def styleGet (m : List (StyleAttribute × String)) (k : StyleAttribute) : String :=
  match m.find? (fun p => p.1 == k) with
  | some p => p.2
  | none => ""

/-- Leading digit run of `strtol`: accumulate decimal digits, stopping at
the first non-digit. -/
def stoiDigits : List Char → Nat → Nat
  | [], acc => acc
  | c :: t, acc => if c.isDigit then stoiDigits t (acc * 10 + (c.toNat - 48)) else acc

/-- `none` unless the list starts with a digit; otherwise the value of
the leading digit run. -/
def digitRun : List Char → Option Nat
  | [] => none
  | c :: t => if c.isDigit then some (stoiDigits (c :: t) 0) else none

/-- `std::stoi`: skip leading whitespace, allow one sign, then require at
least one digit (trailing non-digits are ignored).  `none` models the
thrown `std::invalid_argument` when no digits can be read.  (Overflow,
`std::out_of_range`, is not modelled; the counts at issue are small.) -/
def cppStoi (s : String) : Option Int :=
  match s.data.dropWhile Char.isWhitespace with
  | '-' :: rest => (digitRun rest).map (fun n => -(n : Int))
  | '+' :: rest => (digitRun rest).map (fun n => (n : Int))
  | cs => (digitRun cs).map (fun n => (n : Int))

/-- The state `readConfig` / `writeConfig` operate on: the global `style`
map and `applications` vector. -/
structure ConfigState where
  style : List (StyleAttribute × String)
  applications : List Application
deriving DecidableEq, Repr

/-- `line.find_last_of("=")`: index of the last `'='`, `none` for npos. -/
def findLastEq : List Char → Option Nat
  | [] => none
  | c :: t =>
    match findLastEq t with
    | some i => some (i + 1)
    | none => if c = '=' then some 0 else none

/-- Style branch of `readConfig` (launcher.cpp:222-228): overwrite the
attribute whose name equals the key (`break` after the first hit;
attribute names are distinct, unmatched keys are silently ignored). -/
def applyStyleLine (st : List (StyleAttribute × String)) (key val : String) :
    List (StyleAttribute × String) :=
  match STYLE_ATTRIBUTES.find? (fun p => p.2 == key) with
  | some p => styleSet st p.1 val
  | none => st

/-- Application-count branch of `readConfig` (launcher.cpp:229-236): set
the count of the first application whose id equals the key to
`stoi(val)`, then `break`; `none` models the uncaught
`std::invalid_argument` thrown by `stoi` (it escapes `readConfig` and
aborts the whole load). -/
def applyCountLine : List Application → String → String → Option (List Application)
  | [], _, _ => some []
  | app :: rest, key, val =>
    if app.id = key then
      match cppStoi val with
      | some n => some ({ app with count := n } :: rest)
      | none => none
    else
      (applyCountLine rest key val).map (fun r => app :: r)

/-- One line of `readConfig` (launcher.cpp:217-237): skip lines without
`'='`; split at the last `'='`; keys without `'/'` are style records,
keys with `'/'` are application-count records. -/
def readConfigLine (st : ConfigState) (line : String) : Option ConfigState :=
  match findLastEq line.data with
  | none => some st
  | some i =>
    let key : String := String.mk (line.data.take i)
    let val : String := String.mk (line.data.drop (i + 1))
    if key.data.contains '/' then
      (applyCountLine st.applications key val).map fun apps =>
        { st with applications := apps }
    else
      some { st with style := applyStyleLine st.style key val }

/-- `readConfig` over the lines of the persisted store; `none` propagates
the uncaught exception (the load aborts, later lines unprocessed). -/
def readConfig (st : ConfigState) : List String → Option ConfigState
  | [] => some st
  | line :: rest =>
    match readConfigLine st line with
    | some st2 => readConfig st2 rest
    | none => none

/-- `writeConfig` (launcher.cpp:240-256) as the list of lines written:
`[Style]` header, one `name=value` line per non-default attribute (map
order), a blank line, the `[Application Launch Counts]` header, and one
`id=count` line per application with `count > 0`. -/
def writeConfig (st : ConfigState) : List String :=
  ["[Style]"]
    ++ STYLE_ATTRIBUTES.filterMap (fun p =>
        if styleGet st.style p.1 ≠ styleGet DEFAULT_STYLE p.1 then
          some (p.2 ++ "=" ++ styleGet st.style p.1)
        else none)
    ++ ["", "[Application Launch Counts]"]
    ++ st.applications.filterMap (fun app =>
        if 0 < app.count then some (app.id ++ "=" ++ toString app.count) else none)

/-- Application records for the store claims (ids are `.desktop` paths,
so they contain `'/'` and no `'='`). -/
def appFoo : Application := { id := "/usr/share/applications/foo.desktop" }

def appBar : Application := { id := "/usr/share/applications/bar.desktop" }

/-- Application A of the round-trip scenario (launch count 5 when saved). -/
def appAlpha : Application := { id := "/usr/share/applications/alpha.desktop" }

/-- Application B of the round-trip scenario (launch count 0 throughout). -/
def appBeta : Application := { id := "/usr/share/applications/beta.desktop" }

example : cppTokenize ("a  b") = ["a", "", "b"] := by decide

example : cppTokenize ("a ") = ["a"] := by decide

example : cppTokenize (" ") = [""] := by decide

example : cppTokenize ("") = [] := by decide

example : strFind ("firefox") ("fire") = some 0 := by decide

example : strFind ("firefox") ("web") = none := by decide

example : strFind ("xfire") ("fire") = some 1 := by decide

theorem scoreLoop_eq_zero_of_no_match (queryi : String) (count : Int)
    (kws : List Keyword) :
    ∀ j, firstMatchIdx queryi kws = none → scoreLoop queryi count kws j = 0 := by
  induction kws with
  | nil => intro j _; rfl
  | cons kw rest ih =>
    intro j h
    simp only [firstMatchIdx] at h
    cases hf : strFind kw.word queryi with
    | some m => rw [hf] at h; simp at h
    | none =>
      rw [hf] at h
      simp only [Option.isSome_none, Bool.false_eq_true, if_false, Option.map_eq_none'] at h
      simp only [scoreLoop, hf]
      exact ih (j + 1) h

theorem scoreLoop_eq_of_first_match (queryi : String) (count : Int)
    (kws : List Keyword) :
    ∀ j i, firstMatchIdx queryi kws = some i →
      ∃ kw m, kws.get? i = some kw ∧ strFind kw.word queryi = some m ∧
        scoreLoop queryi count kws j =
          (100 - ((j : Int) + (i : Int))) * kw.weight * (if m = 0 then 10000 else 100) + count := by
  induction kws with
  | nil => intro j i h; exact absurd h (by simp [firstMatchIdx])
  | cons kw rest ih =>
    intro j i h
    cases hf : strFind kw.word queryi with
    | some m =>
      rw [firstMatchIdx, hf] at h
      simp only [Option.isSome_some, if_true, Option.some.injEq] at h
      subst h
      refine ⟨kw, m, rfl, hf, ?_⟩
      simp only [scoreLoop, hf]
      push_cast
      ring_nf
    | none =>
      rw [firstMatchIdx, hf] at h
      simp only [Option.isSome_none, Bool.false_eq_true, if_false, Option.map_eq_some'] at h
      obtain ⟨i', hi', rfl⟩ := h
      obtain ⟨kw', m', hget, hfind, hsc⟩ := ih (j + 1) i' hi'
      refine ⟨kw', m', by simpa using hget, hfind, ?_⟩
      simp only [scoreLoop, hf]
      rw [hsc]
      push_cast
      ring_nf

theorem scoreLoop_stops_at_match (queryi : String) (count : Int) (kw : Keyword)
    (h : (strFind kw.word queryi).isSome = true) :
    ∀ (pre suf suf' : List Keyword) (j : Nat),
      scoreLoop queryi count (pre ++ kw :: suf) j =
        scoreLoop queryi count (pre ++ kw :: suf') j := by
  intro pre
  induction pre with
  | nil =>
    intro suf suf' j
    obtain ⟨m, hm⟩ := Option.isSome_iff_exists.mp h
    simp only [List.nil_append, scoreLoop, hm]
  | cons p pre' ih =>
    intro suf suf' j
    simp only [List.cons_append, scoreLoop]
    cases hf : strFind p.word queryi with
    | some m => simp only [hf]
    | none => simp only [hf]; exact ih suf suf' (j + 1)

/-- **C1**: for a non-empty lower-cased query, the ranking scans an
application's keyword list in order and scores only the first keyword
containing the query, with score
`(100 - i) * w * (m == 0 ? 10000 : 100) + count` where `i` is that
keyword's index, `w` its weight and `m` the match position; if no keyword
matches the score stays 0, and keywords after the first qualifying one
never influence the score. -/
theorem ranking_scores_first_matching_keyword (queryi : String) (app : Application) :
    (firstMatchIdx queryi app.keywords = none → scoreApp queryi app = 0) ∧
    (∀ i, firstMatchIdx queryi app.keywords = some i →
      ∃ kw m, app.keywords.get? i = some kw ∧ strFind kw.word queryi = some m ∧
        scoreApp queryi app =
          (100 - (i : Int)) * kw.weight * (if m = 0 then 10000 else 100) + app.count) ∧
    (∀ (c : Int) (kw : Keyword) (pre suf suf' : List Keyword),
      (strFind kw.word queryi).isSome = true →
      scoreLoop queryi c (pre ++ kw :: suf) 0 = scoreLoop queryi c (pre ++ kw :: suf') 0) := by
  refine ⟨fun h => scoreLoop_eq_zero_of_no_match queryi app.count app.keywords 0 h,
    fun i h => ?_,
    fun c kw pre suf suf' h => scoreLoop_stops_at_match queryi c kw h pre suf suf' 0⟩
  obtain ⟨kw, m, h1, h2, h3⟩ := scoreLoop_eq_of_first_match queryi app.count app.keywords 0 i h
  refine ⟨kw, m, h1, h2, ?_⟩
  rw [scoreApp, h3]
  norm_num

theorem ranking_scores_first_matching_keyword_witness :
    scoreApp ("fire") appA = 1000000005 := by
  obtain ⟨-, h2, -⟩ := ranking_scores_first_matching_keyword ("fire") appA
  obtain ⟨kw, m, hget, hfind, hsc⟩ := h2 0 (by decide)
  have hkw : kw = (⟨"firefox", 1000⟩ : Keyword) := by simpa [appA] using hget.symm
  have h0 : strFind ("firefox") ("fire") = some 0 := by decide
  rw [hkw] at hfind
  have hm : m = 0 := (Option.some.inj (h0.symm.trans hfind)).symm
  rw [hsc, hkw, hm]
  norm_num [appA]

/-- **C9 counterexample**: the claim asserts the query "fire" yields score
100000005 on the Firefox example, but the code computes
`100 * 1000 * 10000 + 5 = 1000000005`. -/
theorem end_to_end_example_counterexample :
    scoreApp ("fire") appA ≠ 100000005 := by decide

/-- **C9 (amended)**: on the Firefox example, query "fire" matches keyword
"firefox" at index 0 (prefix) and yields score 1000000005, and query "web"
matches keyword "web" at index 1 (prefix) and yields score 990005. -/
theorem end_to_end_example_amended :
    scoreApp ("fire") appA = 1000000005 ∧
    firstMatchIdx ("fire") appA.keywords = some 0 ∧
    scoreApp ("web") appA = 990005 ∧
    firstMatchIdx ("web") appA.keywords = some 1 := by
  refine ⟨by decide, by decide, by decide, by decide⟩

/-- **C3 counterexample**: both applications match the query "fire" with
their first keyword at index 0 and weight 1; the match is a prefix on
`appPfx` (m = 0) and a non-prefix substring on `appSub` (m = 1), yet with
counts 0 and 10000000 the prefix application does **not** receive the
strictly higher score. -/
theorem prefix_dominance_counterexample :
    firstMatchIdx ("fire") appPfx.keywords = some 0 ∧
    firstMatchIdx ("fire") appSub.keywords = some 0 ∧
    strFind ("fire") ("fire") = some 0 ∧
    strFind ("xfire") ("fire") = some 1 ∧
    ¬ scoreApp ("fire") appSub < scoreApp ("fire") appPfx := by
  refine ⟨by decide, by decide, by decide, by decide, by decide⟩

/-- **C3 (amended)**: with the first qualifying keywords at the same index
`i` and of the same weight, a prefix match (m = 0) scores strictly higher
than a non-prefix substring match (m ≠ 0) **provided** the non-prefix
application's count exceeds the prefix application's count by less than
`(100 - i) * w * 9900`; for larger counts the non-prefix application can
score higher. -/
theorem prefix_dominance_amended (queryi : String) (appP appS : Application)
    (kwP kwS : Keyword) (i m : Nat)
    (hP : firstMatchIdx queryi appP.keywords = some i)
    (hPget : appP.keywords.get? i = some kwP)
    (hPm : strFind kwP.word queryi = some 0)
    (hS : firstMatchIdx queryi appS.keywords = some i)
    (hSget : appS.keywords.get? i = some kwS)
    (hSm : strFind kwS.word queryi = some m)
    (hm : m ≠ 0)
    (hw : kwS.weight = kwP.weight)
    (hcount : appS.count < (100 - (i : Int)) * kwP.weight * 9900 + appP.count) :
    scoreApp queryi appS < scoreApp queryi appP := by
  obtain ⟨kw1, m1, hg1, hf1, hs1⟩ :=
    scoreLoop_eq_of_first_match queryi appP.count appP.keywords 0 i hP
  obtain ⟨kw2, m2, hg2, hf2, hs2⟩ :=
    scoreLoop_eq_of_first_match queryi appS.count appS.keywords 0 i hS
  have hkw1 : kw1 = kwP := Option.some.inj (hg1.symm.trans hPget)
  have hkw2 : kw2 = kwS := Option.some.inj (hg2.symm.trans hSget)
  subst hkw1 hkw2
  have hm1 : m1 = 0 := Option.some.inj (hf1.symm.trans hPm)
  have hm2 : m2 = m := Option.some.inj (hf2.symm.trans hSm)
  subst hm1 hm2
  simp only [scoreApp]
  rw [hs1, hs2, hw]
  rw [if_pos rfl, if_neg hm]
  push_cast
  ring_nf
  ring_nf at hcount
  linarith

theorem prefix_dominance_amended_witness :
    scoreApp ("fire") appSubW < scoreApp ("fire") appPfxW :=
  prefix_dominance_amended ("fire") appPfxW appSubW ⟨"fire", 2⟩ ⟨"afire", 2⟩ 0 1
    (by decide) (by decide) (by decide) (by decide) (by decide) (by decide)
    (by decide) (by decide) (by decide)

theorem onEditKey_cursor_le (s : EditState) (k : EditKey)
    (h : s.cursor ≤ s.query.length) :
    (onEditKey s k).cursor ≤ (onEditKey s k).query.length := by
  cases k with
  | left => simp only [onEditKey]; split <;> omega
  | right => simp only [onEditKey]; split <;> omega
  | home => simp only [onEditKey]; omega
  | endKey => simp only [onEditKey]; omega
  | backspace =>
    simp only [onEditKey]
    split
    · next hc =>
      simp only [List.length_eraseIdx]
      have : s.cursor - 1 < s.query.length := by omega
      simp only [if_pos this]
      omega
    · exact h
  | del =>
    simp only [onEditKey]
    split
    · next hc =>
      simp only [List.length_eraseIdx, if_pos hc]
      omega
    · exact h
  | insert c =>
    simp only [onEditKey, List.length_append, List.length_take, List.length_drop,
      List.length_cons, List.length_nil]
    omega

/-- **C7**: starting from any state whose cursor is a valid insertion
offset, after any finite sequence of MoveLeft / MoveRight / MoveHome /
MoveEnd / Backspace / Delete / InsertChar commands the cursor is still in
`[0, len(queryText)]` for the then-current query text (and hence after
every intermediate command as well, each prefix being such a sequence). -/
theorem cursor_stays_in_bounds (s : EditState) (ks : List EditKey)
    (h : s.cursor ≤ s.query.length) :
    (onEditKeys s ks).cursor ≤ (onEditKeys s ks).query.length := by
  induction ks generalizing s with
  | nil => exact h
  | cons k ks ih => exact ih (onEditKey s k) (onEditKey_cursor_le s k h)

theorem cursor_stays_in_bounds_witness :
    (onEditKeys ⟨['h', 'i'], 2⟩
        [.backspace, .insert 'x', .left, .del, .home, .right, .endKey]).cursor ≤
      (onEditKeys ⟨['h', 'i'], 2⟩
        [.backspace, .insert 'x', .left, .del, .home, .right, .endKey]).query.length :=
  cursor_stays_in_bounds ⟨['h', 'i'], 2⟩
    [.backspace, .insert 'x', .left, .del, .home, .right, .endKey] (by decide)

theorem splitAllPieces_ne_nil : ∀ cs : List Char, splitAllPieces cs ≠ [] := by
  intro cs
  cases cs with
  | nil => simp [splitAllPieces]
  | cons c t =>
    rw [splitAllPieces]
    cases splitAllPieces t with
    | nil => simp
    | cons p ps =>
      dsimp only
      by_cases hc : c = ' ' <;> simp [hc]

theorem cppTokensAux_eq : ∀ (cs acc : List Char) (p : List Char) (ps : List (List Char)),
    splitAllPieces cs = p :: ps →
    cppTokensAux cs acc = (dropLastEmptyPiece ((acc.reverse ++ p) :: ps)).map String.mk := by
  intro cs
  induction cs with
  | nil =>
    intro acc p ps h
    simp only [splitAllPieces] at h
    obtain ⟨rfl, rfl⟩ : p = [] ∧ ps = [] := by
      constructor <;> [exact (List.cons.inj h).1.symm; exact (List.cons.inj h).2.symm]
    simp only [cppTokensAux, dropLastEmptyPiece, List.append_nil]
    by_cases hacc : acc = []
    · simp [hacc]
    · rw [if_neg hacc, if_neg (by simpa using hacc)]
      simp
  | cons c t ih =>
    intro acc p ps h
    cases hsp : splitAllPieces t with
    | nil => exact absurd hsp (splitAllPieces_ne_nil t)
    | cons p' ps' =>
      rw [splitAllPieces, hsp] at h
      dsimp only at h
      by_cases hc : c = ' '
      · rw [if_pos hc] at h
        obtain ⟨rfl, rfl⟩ : p = [] ∧ ps = p' :: ps' := by
          constructor <;> [exact (List.cons.inj h).1.symm; exact (List.cons.inj h).2.symm]
        simp only [cppTokensAux, if_pos hc]
        rw [ih [] _ _ hsp]
        simp [dropLastEmptyPiece]
      · rw [if_neg hc] at h
        obtain ⟨rfl, rfl⟩ : p = c :: p' ∧ ps = ps' := by
          constructor <;> [exact (List.cons.inj h).1.symm; exact (List.cons.inj h).2.symm]
        simp only [cppTokensAux, if_neg hc]
        rw [ih (c :: acc) _ _ hsp]
        simp [List.append_assoc]

/-- **C4 counterexample**: the record with name `"a  b"` (consecutive
spaces) and empty genericName / comment yields the empty-string keyword
twice: once from the name, once from the `genericName + ' ' + comment`
separator. -/
theorem tokenizer_keeps_empty_tokens_counterexample :
    indexKeywords [] ("a  b") ("") ("") =
      [⟨"a", 1000⟩, ⟨"", 1000⟩, ⟨"b", 1000⟩, ⟨"", 1⟩] ∧
    (⟨"", 1000⟩ : Keyword) ∈ indexKeywords [] ("a  b") ("") ("") := by
  refine ⟨by decide, by decide⟩

/-- **C4 (amended)**: the tokenization emits every space-delimited piece
as a keyword — including empty pieces from consecutive spaces, a leading
space, or the separator joining an empty genericName and comment — and
drops only a trailing empty piece; so empty-string keywords are produced,
not skipped. -/
theorem tokenizer_keeps_empty_tokens_amended :
    (∀ s : String, cppTokenize s = (dropLastEmptyPiece (splitAllPieces s.data)).map String.mk) ∧
    (∀ (kws0 : List Keyword) (name genericName comment : String),
      indexKeywords kws0 name genericName comment =
        kws0
          ++ ((dropLastEmptyPiece (splitAllPieces (lowercase name).data)).map String.mk).map
              (fun w => ⟨w, 1000⟩)
          ++ ((dropLastEmptyPiece
                (splitAllPieces (lowercase (genericName ++ " " ++ comment)).data)).map
                  String.mk).map (fun w => ⟨w, 1⟩)) := by
  have htok : ∀ s : String,
      cppTokenize s = (dropLastEmptyPiece (splitAllPieces s.data)).map String.mk := by
    intro s
    cases hsp : splitAllPieces s.data with
    | nil => exact absurd hsp (splitAllPieces_ne_nil s.data)
    | cons p ps =>
      rw [cppTokenize, cppTokensAux_eq s.data [] p ps hsp]
      simp
  exact ⟨htok, fun kws0 name genericName comment => by rw [indexKeywords, htok, htok]⟩

theorem mem_resultCandidates {queryi : String} {apps : List Application} {r : Result}
    (h : r ∈ resultCandidates queryi apps) :
    r.app ∈ apps ∧ r.score = scoreApp queryi r.app ∧ 0 < r.score := by
  rw [resultCandidates, List.mem_filterMap] at h
  obtain ⟨app, hmem, heq⟩ := h
  dsimp only at heq
  by_cases hs : 0 < scoreApp queryi app
  · rw [if_pos hs] at heq
    have hr := Option.some.inj heq
    subst hr
    exact ⟨hmem, rfl, hs⟩
  · rw [if_neg hs] at heq
    exact absurd heq (by simp)

theorem resultCandidates_mem {queryi : String} {apps : List Application} {app : Application}
    (hmem : app ∈ apps) (hs : 0 < scoreApp queryi app) :
    (⟨app, scoreApp queryi app⟩ : Result) ∈ resultCandidates queryi apps := by
  rw [resultCandidates, List.mem_filterMap]
  exact ⟨app, hmem, by dsimp only; rw [if_pos hs]⟩

theorem mem_search_mem_candidates {queryi : String} {apps : List Application} {r : Result}
    (h : r ∈ search queryi apps) : r ∈ resultCandidates queryi apps := by
  rw [search] at h
  split at h
  · rw [truncate10] at h
    have hsub : r ∈ List.insertionSort byScoreDesc (resultCandidates queryi apps) := by
      split at h
      · exact List.take_subset 10 _ h
      · exact h
    exact (List.perm_insertionSort byScoreDesc (resultCandidates queryi apps)).mem_iff.mp hsub
  · exact absurd h (List.not_mem_nil r)

theorem search_eq_sort_of_le_ten (queryi : String) (apps : List Application)
    (hq : 0 < queryi.length)
    (hlen : (resultCandidates queryi apps).length ≤ 10) :
    search queryi apps = List.insertionSort byScoreDesc (resultCandidates queryi apps) := by
  rw [search, if_pos hq, truncate10, if_neg]
  have := (List.perm_insertionSort byScoreDesc (resultCandidates queryi apps)).length_eq
  omega

theorem scoreLoop_eq_zero_of_all_fail (queryi : String) (count : Int)
    (kws : List Keyword) (h : ∀ kw ∈ kws, strFind kw.word queryi = none) :
    ∀ j, scoreLoop queryi count kws j = 0 := by
  induction kws with
  | nil => intro j; rfl
  | cons kw rest ih =>
    intro j
    have h0 : strFind kw.word queryi = none := h kw (List.mem_cons_self kw rest)
    simp only [scoreLoop, h0]
    exact ih (fun k hk => h k (List.mem_cons_of_mem kw hk)) (j + 1)

/-- **C8**: the empty query yields the empty result sequence, and an
application none of whose keywords contains the query contributes no
result (its score stays 0, and score 0 is never pushed). -/
theorem empty_query_and_unmatched_app_absent :
    (∀ apps : List Application, search ("") apps = []) ∧
    (∀ (queryi : String) (app : Application) (apps : List Application),
      (∀ kw ∈ app.keywords, strFind kw.word queryi = none) →
      ∀ r ∈ search queryi apps, r.app ≠ app) := by
  constructor
  · intro apps
    rw [search, if_neg (by decide)]
  · intro queryi app apps hfail r hr hra
    obtain ⟨-, hscore, hpos⟩ := mem_resultCandidates (mem_search_mem_candidates hr)
    rw [hra] at hscore
    rw [hscore] at hpos
    have hz : scoreApp queryi app = 0 :=
      scoreLoop_eq_zero_of_all_fail queryi app.count app.keywords hfail 0
    omega

theorem empty_query_and_unmatched_app_absent_witness :
    appA ∉ (search ("zzz") [appA]).map Result.app := by
  intro hmem
  rw [List.mem_map] at hmem
  obtain ⟨r, hr, hra⟩ := hmem
  exact (empty_query_and_unmatched_app_absent.2 ("zzz") appA [appA] (by decide) r hr) hra

/-- **C2**: when more than 10 applications qualify (strictly positive
score), exactly 10 results are returned, and they are the 10
highest-scoring among all qualifying applications: the result list is an
initial segment of a descending-sorted permutation of the full candidate
list, so every returned score is ≥ every omitted score. -/
theorem top_ten_cap (queryi : String) (apps : List Application)
    (hq : 0 < queryi.length)
    (hgt : 10 < (resultCandidates queryi apps).length) :
    (search queryi apps).length = 10 ∧
    ∃ rest : List Result,
      (search queryi apps ++ rest).Perm (resultCandidates queryi apps) ∧
      List.Sorted byScoreDesc (search queryi apps ++ rest) ∧
      ∀ r ∈ search queryi apps, ∀ r' ∈ rest, r'.score ≤ r.score := by
  have hperm := List.perm_insertionSort byScoreDesc (resultCandidates queryi apps)
  have hlen := hperm.length_eq
  have hsorted := List.sorted_insertionSort byScoreDesc (resultCandidates queryi apps)
  have hsearch : search queryi apps =
      (List.insertionSort byScoreDesc (resultCandidates queryi apps)).take 10 := by
    rw [search, if_pos hq, truncate10, if_pos (by omega)]
  refine ⟨by rw [hsearch, List.length_take]; omega,
    (List.insertionSort byScoreDesc (resultCandidates queryi apps)).drop 10, ?_, ?_, ?_⟩
  · rw [hsearch, List.take_append_drop]
    exact hperm
  · rw [hsearch, List.take_append_drop]
    exact hsorted
  · intro r hr r' hr'
    rw [hsearch] at hr
    have hpw : List.Sorted byScoreDesc
        ((List.insertionSort byScoreDesc (resultCandidates queryi apps)).take 10 ++
          (List.insertionSort byScoreDesc (resultCandidates queryi apps)).drop 10) := by
      rw [List.take_append_drop]
      exact hsorted
    exact (List.pairwise_append.mp hpw).2.2 r hr r' hr'

theorem top_ten_cap_witness : (search ("app") capApps).length = 10 :=
  (top_ten_cap ("app") capApps (by decide) (by decide)).1

/-- **C10 counterexample**: with eleven qualifying applications, `appZero`
has strictly positive score for the query "app" yet is not in the result
list — the top-10 truncation removes it, so inclusion is not equivalent
to a strictly positive score. -/
theorem result_iff_positive_counterexample :
    appZero ∈ capApps ∧
    0 < scoreApp ("app") appZero ∧
    appZero ∉ (search ("app") capApps).map Result.app := by
  refine ⟨by decide, by decide, by decide⟩

/-- **C10 (amended)**: every returned result has strictly positive score
(positivity is necessary); a strictly positive score guarantees inclusion
whenever at most 10 applications qualify (with more, only the top 10
remain); and an application whose first matching keyword sits at index
≥ 100, whose count is 0 and whose keyword weights are non-negative has
score ≤ 0 and is excluded even though a keyword matches. -/
theorem result_iff_positive_score_amended :
    (∀ (queryi : String) (apps : List Application) (r : Result), r ∈ search queryi apps →
      r.app ∈ apps ∧ r.score = scoreApp queryi r.app ∧ 0 < r.score) ∧
    (∀ (queryi : String) (apps : List Application) (app : Application),
      0 < queryi.length → app ∈ apps → 0 < scoreApp queryi app →
      (resultCandidates queryi apps).length ≤ 10 →
      (⟨app, scoreApp queryi app⟩ : Result) ∈ search queryi apps) ∧
    (∀ (queryi : String) (app : Application) (i : Nat),
      firstMatchIdx queryi app.keywords = some i → 100 ≤ i → app.count = 0 →
      (∀ kw ∈ app.keywords, 0 ≤ kw.weight) →
      scoreApp queryi app ≤ 0 ∧
        ∀ (apps : List Application) (r : Result), r ∈ search queryi apps → r.app ≠ app) := by
  refine ⟨fun queryi apps r hr => mem_resultCandidates (mem_search_mem_candidates hr),
    fun queryi apps app hq hmem hs hlen => ?_, fun queryi app i hfmi hi hc hw => ?_⟩
  · rw [search_eq_sort_of_le_ten queryi apps hq hlen]
    exact (List.perm_insertionSort byScoreDesc _).mem_iff.mpr (resultCandidates_mem hmem hs)
  · have hle : scoreApp queryi app ≤ 0 := by
      obtain ⟨kw, m, hget, hfind, hsc⟩ :=
        scoreLoop_eq_of_first_match queryi app.count app.keywords 0 i hfmi
      have hwkw : 0 ≤ kw.weight := hw kw (List.get?_mem hget)
      rw [scoreApp, hsc, hc]
      have hD : (100 - (((0 : Nat) : Int) + ((i : Nat) : Int))) ≤ 0 := by push_cast; omega
      have h1 : (100 - (((0 : Nat) : Int) + ((i : Nat) : Int))) * kw.weight ≤ 0 := by
        nlinarith [hD, hwkw]
      split_ifs <;> linarith
    refine ⟨hle, fun apps r hr hra => ?_⟩
    obtain ⟨-, hscore, hpos⟩ := mem_resultCandidates (mem_search_mem_candidates hr)
    rw [hra] at hscore
    rw [hscore] at hpos
    linarith

theorem result_iff_positive_score_amended_witness :
    (⟨appX, scoreApp ("a") appX⟩ : Result) ∈ search ("a") [appX] :=
  result_iff_positive_score_amended.2.1 ("a") [appX] appX (by decide) (by decide)
    (by decide) (by decide)

/-- **C5**: a persisted record whose key matches an application id but
whose value has no leading integer makes `stoi` throw
`std::invalid_argument`; nothing catches it, so the whole load aborts
(modelled by `none`) — the remaining records (here `bar.desktop=7`) are
never processed, contradicting the claimed skip-and-continue handling. -/
theorem unparsable_count_aborts_load :
    readConfig ⟨DEFAULT_STYLE, [appFoo, appBar]⟩
      ["/usr/share/applications/foo.desktop=abc",
        "/usr/share/applications/bar.desktop=7"] = none := by
  decide

/-- **C6**: for every choice of the overridden attribute, saving the style
map with that one attribute set to `"#custom"` and counts {alpha: 5,
beta: 0}, then loading into a fresh state (default style, all counts 0),
restores the override, the default for every other attribute, count 5 for
alpha and count 0 for beta; moreover the only application-count line
written is the one for alpha (zero counts are not persisted, and beta's
absence loads back as count 0). -/
theorem config_round_trip :
    ∀ t : StyleAttribute,
      readConfig ⟨DEFAULT_STYLE, [appAlpha, appBeta]⟩
          (writeConfig ⟨styleSet DEFAULT_STYLE t ("#custom"),
            [{ appAlpha with count := 5 }, appBeta]⟩) =
        some ⟨styleSet DEFAULT_STYLE t ("#custom"),
          [{ appAlpha with count := 5 }, appBeta]⟩ ∧
      (writeConfig ⟨styleSet DEFAULT_STYLE t ("#custom"),
          [{ appAlpha with count := 5 }, appBeta]⟩).filter
          (fun l => l.data.contains '/') =
        [appAlpha.id ++ "=5"] := by
  intro t
  cases t <;> exact ⟨by decide, by decide⟩
